import Mathlib

/-
Verification development for the CPAP waveform-to-metrics analysis pipeline
implemented in src/cpap_analysis.py.

The pipeline stages are embedded shallowly:

* machine floats are modelled as elements of a linear ordered field
  (instantiated at ℝ for the claims, and at ℚ inside concrete witnesses);
* the raw sample matrix is a list of rows, a flow series is a list of
  (time, flow) pairs;
* Python exceptions (IndexError from indexing an empty array, ValueError
  raised inside scipy's filter design) are modelled with Except;
* the two IEEE special values that actually arise on the degenerate paths of
  detect_peak_times (NaN from numpy's mean of an empty array, +inf from 1.0/0.0)
  are modelled by the small wrapper type NpF below;
* numpy/scipy library calls (np.diff, np.mean, np.trapz, scipy.signal.iirfilter,
  scipy.signal.sosfilt, scipy.signal.find_peaks) are modelled from their
  published source: each model carries a comment naming the library routine
  it mirrors.
-/

namespace CPAP

section GenericDefs

variable {α : Type} [LinearOrderedField α]

/-- Model of numpy.diff on a 1-D array: consecutive differences
a[i+1] - a[i].  (src/cpap_analysis.py lines 193 and 300 both use np.diff.) -/
def npDiff (l : List α) : List α :=
  List.zipWith (fun a b => b - a) l l.tail

/-- Source: apnea_events (src/cpap_analysis.py lines 285-302).
intervals = np.diff(peak_times); apnea_count = np.sum(intervals > 10). -/
def apnea_events (peak_times : List α) : ℕ :=
  (npDiff peak_times).countP (fun d => decide (10 < d))

/-- Model of np.trapz(q, x=time) on a series of (time, q) pairs:
the trapezoidal rule, sum of (t[i+1] - t[i]) * (q[i] + q[i+1]) / 2. -/
def npTrapz (data : List (α × α)) : α :=
  (List.zipWith (fun p q => (q.1 - p.1) * (p.2 + q.2) / 2) data data.tail).sum

/-- Source: calculate_leakage (src/cpap_analysis.py lines 305-329).
The first component is the returned value (np.trapz in m³ scaled by 1000 to
liters); the Boolean records whether logger.warning("Negative leakage
detected.") fired — the warning is the only effect of the negative branch. -/
def calculate_leakage (data : List (α × α)) : α × Bool :=
  let leakage_liters := npTrapz data * 1000
  (leakage_liters, decide (leakage_liters < 0))

/-- IEEE-style scalar domain for the sampling-rate computation of
detect_peak_times: a finite value, NaN, +inf or -inf.  Only the operations
exercised by that code path are modelled. -/
inductive NpF (α : Type) where
  | num (x : α)
  | nan
  | pinf
  | ninf
deriving DecidableEq

/-- Model of numpy.mean on a 1-D array: NaN on an empty array (numpy emits a
RuntimeWarning and returns NaN), otherwise the arithmetic mean. -/
def npMean (l : List α) : NpF α :=
  if l.isEmpty then NpF.nan else NpF.num (l.sum / (l.length : α))

/-- IEEE-style division on NpF (zeros are treated as +0, which is what the
detect_peak_times path produces): finite/0 gives a signed infinity (NaN for
0/0), anything with NaN gives NaN, finite/inf gives 0, inf/finite keeps the
sign, inf/inf gives NaN. -/
def NpF.div : NpF α → NpF α → NpF α
  | NpF.nan, _ => NpF.nan
  | _, NpF.nan => NpF.nan
  | NpF.num a, NpF.num b =>
      if b = 0 then
        (if a = 0 then NpF.nan else if 0 < a then NpF.pinf else NpF.ninf)
      else NpF.num (a / b)
  | NpF.num _, NpF.pinf => NpF.num 0
  | NpF.num _, NpF.ninf => NpF.num 0
  | NpF.pinf, NpF.num b => if b < 0 then NpF.ninf else NpF.pinf
  | NpF.ninf, NpF.num b => if b < 0 then NpF.pinf else NpF.ninf
  | NpF.pinf, NpF.pinf => NpF.nan
  | NpF.pinf, NpF.ninf => NpF.nan
  | NpF.ninf, NpF.pinf => NpF.nan
  | NpF.ninf, NpF.ninf => NpF.nan

/-- One normalized second-order filter section (scipy sos row with a0 = 1,
as produced by butter for a 2nd-order design). -/
structure SosSection (α : Type) where
  b0 : α
  b1 : α
  b2 : α
  a1 : α
  a2 : α

/-- Model of scipy.signal.sosfilt for a single normalized section, direct
form II transposed, zero initial state:
y[n] = b0 x[n] + z1;  z1 ← b1 x[n] + z2 - a1 y[n];  z2 ← b2 x[n] - a2 y[n]. -/
def sosfilt (c : SosSection α) : List α → α → α → List α
  | [], _, _ => []
  | xn :: rest, z1, z2 =>
      let yn := c.b0 * xn + z1
      yn :: sosfilt c rest (c.b1 * xn + z2 - c.a1 * yn) (c.b2 * xn - c.a2 * yn)

/-- Model of the square of np.std: mean of squared deviations from the mean
(population variance).  The enclosing caller applies the square root. -/
def npVariance (l : List α) : α :=
  ((l.map (fun v => (v - l.sum / (l.length : α)) ^ 2)).sum) / (l.length : α)

end GenericDefs

section PeakScanDefs

/- The peak-scanning routines below only compare, subtract and look up
samples, so they are stated over any linear order with a zero and a
subtraction; the pipeline instantiates them at ℝ. -/

variable {α : Type} [LinearOrder α] [Zero α] [Sub α]

/-- Model of the plateau scan inside scipy's _local_maxima_1d: the number of
steps the inner loop `while i_ahead < i_max and x[i_ahead] == x[i]` takes
starting from index j.  The loop's final index i_ahead is j + plateauLen j. -/
def plateauLen (x : List α) (iMax : ℕ) (v : α) (j : ℕ) : ℕ :=
  if h : j < iMax ∧ x.getD j 0 = v then plateauLen x iMax v (j + 1) + 1 else 0
termination_by iMax - j
decreasing_by omega

/-- Model of the main loop of scipy's _local_maxima_1d: scan i from 1 while
i < i_max; on a rising edge x[i-1] < x[i], let i_ahead be the end of the
plateau of samples equal to x[i]; if x[i_ahead] < x[i] a maximum is recorded
at the plateau midpoint (i + (i_ahead - 1)) // 2 and the scan resumes at
i_ahead + 1, otherwise at i + 1. -/
def lmGo (x : List α) (iMax : ℕ) (i : ℕ) : List ℕ :=
  if _h : i < iMax then
    if x.getD (i - 1) 0 < x.getD i 0 then
      let j := i + 1 + plateauLen x iMax (x.getD i 0) (i + 1)
      if x.getD j 0 < x.getD i 0 then
        (i + (j - 1)) / 2 :: lmGo x iMax (j + 1)
      else lmGo x iMax (i + 1)
    else lmGo x iMax (i + 1)
  else []
termination_by iMax - i
decreasing_by all_goals omega

/-- Model of scipy's _local_maxima_1d(x): interior local maxima (plateau
midpoints); the first and last samples can never be maxima (i_max = n - 1). -/
def localMaxima (x : List α) : List ℕ :=
  lmGo x (x.length - 1) 1

/-- Model of the left-clearing inner loop of scipy's
_select_by_peak_distance: walk k downward from j - 1 while
peaks[j] - peaks[k] < distance, clearing keep[k]. -/
def clearLeft (peaks : List ℕ) (dist j k : ℕ) (keep : Array Bool) : Array Bool :=
  if peaks.getD j 0 - peaks.getD k 0 < dist then
    let keep1 := keep.set! k false
    if k = 0 then keep1 else clearLeft peaks dist j (k - 1) keep1
  else keep
termination_by k
decreasing_by omega

/-- Model of the right-clearing inner loop of scipy's
_select_by_peak_distance: walk k upward from j + 1 while k < m and
peaks[k] - peaks[j] < distance, clearing keep[k]. -/
def clearRight (peaks : List ℕ) (dist j m k : ℕ) (keep : Array Bool) : Array Bool :=
  if _h : k < m then
    if peaks.getD k 0 - peaks.getD j 0 < dist then
      clearRight peaks dist j m (k + 1) (keep.set! k false)
    else keep
  else keep
termination_by m - k
decreasing_by omega

/-- Model of the outer loop of scipy's _select_by_peak_distance, iterating
over peak positions from highest to lowest priority; positions already
cleared are skipped. -/
def distKeepLoop (peaks : List ℕ) (dist m : ℕ) : List ℕ → Array Bool → Array Bool
  | [], keep => keep
  | j :: rest, keep =>
      if keep.getD j true then
        let k1 := if j = 0 then keep else clearLeft peaks dist j (j - 1) keep
        let k2 := clearRight peaks dist j m (j + 1) k1
        distKeepLoop peaks dist m rest k2
      else distKeepLoop peaks dist m rest keep

/-- Model of scipy's _select_by_peak_distance(peaks, priority, distance):
returns the keep mask.  numpy's unstable argsort is modelled by a stable
merge sort on the priority values (the claims checked here hold for every
tie-breaking order). -/
def selectByPeakDistance (peaks : List ℕ) (priority : List α) (dist : ℕ) :
    Array Bool :=
  let m := peaks.length
  let order :=
    (List.range m).mergeSort (fun a b => decide (priority.getD a 0 ≤ priority.getD b 0))
  distKeepLoop peaks dist m order.reverse (Array.mkArray m true)

/-- Apply a keep mask (as produced by selectByPeakDistance) to a list,
mirroring numpy boolean-mask indexing peaks[keep]. -/
def maskFilter {γ : Type} : List γ → List Bool → List γ
  | [], _ => []
  | _ :: _, [] => []
  | a :: l, b :: bs => if b then a :: maskFilter l bs else maskFilter l bs

/-- Model of the left-base scan of scipy's _peak_prominences: starting at the
peak, walk left while x[i] <= x[peak], tracking the minimum sample seen. -/
def promLeftMin (x : List α) (xp : α) (i : ℕ) (lmin : α) : α :=
  if x.getD i 0 ≤ xp then
    let lmin1 := if x.getD i 0 < lmin then x.getD i 0 else lmin
    if i = 0 then lmin1 else promLeftMin x xp (i - 1) lmin1
  else lmin
termination_by i
decreasing_by omega

/-- Model of the right-base scan of scipy's _peak_prominences: starting at
the peak, walk right while i <= i_max and x[i] <= x[peak], tracking the
minimum sample seen. -/
def promRightMin (x : List α) (xp : α) (n i : ℕ) (rmin : α) : α :=
  if _h : i < n ∧ x.getD i 0 ≤ xp then
    promRightMin x xp n (i + 1) (if x.getD i 0 < rmin then x.getD i 0 else rmin)
  else rmin
termination_by n - i
decreasing_by omega

/-- Model of scipy's _peak_prominences for one peak with wlen = None:
x[peak] - max(left base minimum, right base minimum). -/
def peakProminence (x : List α) (p : ℕ) : α :=
  let xp := x.getD p 0
  xp - max (promLeftMin x xp p xp) (promRightMin x xp x.length p xp)

/-- Model of scipy.signal.find_peaks(x, height=hmin, distance=dist,
prominence=pmin, width=None): local maxima, then the height selection
hmin <= x[peak], then the distance selection, then the prominence selection
pmin <= prominence (each selection keeps a boolean mask over the surviving
peaks, so the index list stays ordered). -/
def findPeaks (x : List α) (hmin : α) (dist : ℕ) (pmin : α) : List ℕ :=
  let peaks0 := localMaxima x
  let peaks1 := peaks0.filter (fun p => decide (hmin ≤ x.getD p 0))
  let keep := selectByPeakDistance peaks1 (peaks1.map (fun p => x.getD p 0)) dist
  let peaks2 := maskFilter peaks1 keep.toList
  peaks2.filter (fun p => decide (pmin ≤ peakProminence x p))

/-- Fuel-indexed twin of plateauLen, structurally recursive on the fuel so that the kernel can reduce it; plateauLenF_eq shows it agrees with plateauLen whenever the fuel covers the distance from j to iMax. -/
def plateauLenF (x : List α) (iMax : ℕ) (v : α) : ℕ → ℕ → ℕ
  | 0, _ => 0
  | fuel+1, j =>
      if j < iMax ∧ x.getD j 0 = v then plateauLenF x iMax v fuel (j + 1) + 1 else 0

/-- Fuel-indexed twin of lmGo (structurally recursive on the fuel), used to evaluate the local-maxima scan on concrete lists by kernel reduction. -/
def lmGoF (x : List α) (iMax : ℕ) : ℕ → ℕ → List ℕ
  | 0, _ => []
  | fuel+1, i =>
      if i < iMax then
        if x.getD (i - 1) 0 < x.getD i 0 then
          if x.getD (i + 1 + plateauLenF x iMax (x.getD i 0) iMax (i + 1)) 0 <
              x.getD i 0 then
            (i + (i + 1 + plateauLenF x iMax (x.getD i 0) iMax (i + 1) - 1)) / 2 ::
              lmGoF x iMax fuel (i + 1 + plateauLenF x iMax (x.getD i 0) iMax (i + 1) + 1)
          else lmGoF x iMax fuel (i + 1)
        else lmGoF x iMax fuel (i + 1)
      else []

/-- Executable twin of localMaxima via lmGoF with fuel x.length; localMaximaF_eq shows the two agree. -/
def localMaximaF (x : List α) : List ℕ :=
  lmGoF x (x.length - 1) x.length 1

/-- Fuel-indexed twin of promLeftMin (structurally recursive on the fuel). -/
def promLeftMinF (x : List α) (xp : α) : ℕ → ℕ → α → α
  | 0, _, lmin => lmin
  | fuel+1, i, lmin =>
      if x.getD i 0 ≤ xp then
        if i = 0 then (if x.getD i 0 < lmin then x.getD i 0 else lmin)
        else promLeftMinF x xp fuel (i - 1)
          (if x.getD i 0 < lmin then x.getD i 0 else lmin)
      else lmin

/-- Fuel-indexed twin of promRightMin (structurally recursive on the fuel). -/
def promRightMinF (x : List α) (xp : α) (n : ℕ) : ℕ → ℕ → α → α
  | 0, _, rmin => rmin
  | fuel+1, i, rmin =>
      if i < n ∧ x.getD i 0 ≤ xp then
        promRightMinF x xp n fuel (i + 1) (if x.getD i 0 < rmin then x.getD i 0 else rmin)
      else rmin

/-- Executable twin of peakProminence built from the fueled base scans; peakProminenceF_eq shows the two agree. -/
def peakProminenceF (x : List α) (p : ℕ) : α :=
  let xp := x.getD p 0
  xp - max (promLeftMinF x xp (p + 1) p xp)
    (promRightMinF x xp x.length (x.length + 1) p xp)

end PeakScanDefs

section DetectorDefs

variable {α : Type} [LinearOrderedField α]

/-- Source: detect_peak_times (src/cpap_analysis.py lines 156-221),
parameterized by the Butterworth coefficient function (design, the numeric
output of scipy.signal.iirfilter for a valid normalized cutoff) and by the
square-root function used in np.std.

The error paths mirror the library faithfully:
* an empty series: flow_rate_data[:, 0] raises IndexError (numpy cannot
  column-index the empty 1-D array np.array([]));
* one sample: np.diff gives an empty array, np.mean of it is NaN, so
  fs = 1.0/NaN = NaN and the normalized cutoff Wn = 2/(fs/2) is NaN; NaN
  passes scipy.iirfilter's checks any(Wn <= 0) and any(Wn >= 1) (both
  comparisons are False for NaN), but the NaN analog poles are dropped by
  _cplxreal inside zpk2sos (a NaN imaginary part is neither > 0, < 0, nor
  within tolerance of 0), leaving an empty pole array on which np.argmin
  raises ValueError("attempt to get argmin of an empty sequence");
* an all-equal time axis with at least two samples: the mean time delta is
  exactly 0, numpy evaluates 1.0/0.0 to +inf, Wn = 2/(inf/2) = 0, and
  scipy.iirfilter raises on any(Wn <= 0);
* a mean time delta that is negative (Wn < 0) or at least 0.25 s (Wn >= 1)
  likewise raises inside scipy.iirfilter. -/
def detectPeakTimesAux (design : α → SosSection α) (sqrtF : α → α)
    (data : List (α × α)) : Except String (List α × List α) :=
  if data.isEmpty then
    Except.error "IndexError: too many indices for array"
  else
    let time := data.map Prod.fst
    let flow := data.map Prod.snd
    let avg := npMean (npDiff time)
    let fs := NpF.div (NpF.num 1) avg
    let wn := NpF.div (NpF.num 2) (NpF.div fs (NpF.num 2))
    match wn with
    | NpF.ninf => Except.error "filter critical frequencies must be greater than 0"
    | NpF.pinf => Except.error "Digital filter critical frequencies must be 0 < Wn < 1"
    | NpF.nan => Except.error "attempt to get argmin of an empty sequence"
    | NpF.num w =>
        if w ≤ 0 then
          Except.error "filter critical frequencies must be greater than 0"
        else if 1 ≤ w then
          Except.error "Digital filter critical frequencies must be 0 < Wn < 1"
        else
          let filtered := sosfilt (design w) flow 0 0
          let prominence := sqrtF (npVariance filtered) * 0.5
          let peaks := findPeaks filtered 0.00009 80 prominence
          Except.ok (peaks.map (fun i => time.getD i 0), filtered)

end DetectorDefs

section MetricsDefs

variable {α : Type} [LinearOrderedField α] [FloorRing α]

/-- Model of Python's round(x, 3).  (Python rounds half to even while
Mathlib's round rounds half up; every property proved below uses the same
rounding function on both sides, so the tie-breaking convention is
irrelevant.) -/
def pyRound3 (x : α) : α :=
  ((round (x * 1000) : ℤ) : α) / 1000

/-- The Metrics record assembled by calculate_metrics (the fixed-shape
dictionary of src/cpap_analysis.py lines 357-366). -/
structure Metrics (α : Type) where
  duration : α
  breaths : ℕ
  breath_rate_bpm : α
  breath_times : List α
  apnea_count : ℕ
  leakage : α
deriving DecidableEq

/-- The quantity time[-1] - time[0] of a flow series (meaningful for a
nonempty series; the defaults are never reached there). -/
def axisDuration (data : List (α × α)) : α :=
  (data.map Prod.fst).getLastD 0 - (data.map Prod.fst).headD 0

/-- Source: calculate_metrics (src/cpap_analysis.py lines 332-367).
On an empty series, time[-1] raises IndexError (modelled as none).
breath_rate_bpm is round(len(peak_times) / (duration / 60) if duration > 0
else 0, 3), computed from the unrounded duration. -/
def calculate_metrics (data : List (α × α)) (peak_times : List α)
    (apneas : ℕ) (leakage : α) : Option (Metrics α) :=
  match data with
  | [] => none
  | _ :: _ =>
      let duration := axisDuration data
      some
        { duration := pyRound3 duration
          breaths := peak_times.length
          breath_rate_bpm :=
            pyRound3 (if 0 < duration then (peak_times.length : α) / (duration / 60) else 0)
          breath_times := peak_times
          apnea_count := apneas
          leakage := pyRound3 leakage }

end MetricsDefs

noncomputable section RealDefs

/-- Density of moist air, kg/m³ (src/cpap_analysis.py line 12). -/
def moist_air_density : ℝ := 1.199

/-- Diameter of the larger venturi tube, m (line 15). -/
def d1 : ℝ := 15 / 1000

/-- Diameter of the constriction, m (line 18). -/
def d2 : ℝ := 12 / 1000

/-- Upstream cross-sectional area, m² (line 21). -/
def A1 : ℝ := Real.pi * ((d1 / 2) ^ 2)

/-- Cross-sectional area at the constriction, m² (line 24). -/
def A2 : ℝ := Real.pi * ((d2 / 2) ^ 2)

/-- The ADC-to-cmH2O linear calibration (25.4 / (14745 - 1638)) * (adc - 1638)
used identically for all three pressure taps (lines 132, 136, 140). -/
def adc_to_cmH2O (adc : ℝ) : ℝ :=
  (25.4 / (14745 - 1638)) * (adc - 1638)

/-- The full ADC-to-pascal conversion: cmH2O value times 98.0665
(lines 133, 137, 141). -/
def adc_to_pressure_pa (adc : ℝ) : ℝ :=
  adc_to_cmH2O adc * 98.0665

/-- The Venturi flow-rate computation of lines 143-147:
Q = A1 * sqrt(2 (p_up - p_down) / (rho ((A1/A2)² - 1))).
Real.sqrt maps a negative radicand to 0 (Python would produce NaN there;
every claim about this function is restricted to the non-negative radicand
domain, where the two semantics coincide). -/
def venturi_flow_rate (p_up p_down : ℝ) : ℝ :=
  let numerator := 2 * (p_up - p_down)
  let denominator := moist_air_density * ((A1 / A2) ^ 2 - 1)
  A1 * Real.sqrt (numerator / denominator)

/-- One row of the raw sample matrix: time and the three ADC pressure taps
used by flow_vs_time (row[0..3]; the remaining three channels of the file
are never read by this pipeline). -/
structure RawRow where
  time : ℝ
  p2_ADC : ℝ
  p1_ins_ADC : ℝ
  p1_exp_ADC : ℝ

/-- The per-row flow computation of flow_vs_time (lines 124-151): convert
the three taps to Pa, take p1 = max(p1_ins_Pa, p1_exp_Pa) as the upstream
pressure, apply the Venturi formula, and negate the result when
p1_exp_Pa > p1_ins_Pa (expiration). -/
def rowFlowRate (r : RawRow) : ℝ :=
  let p1_ins_Pa := adc_to_pressure_pa r.p1_ins_ADC
  let p1_exp_Pa := adc_to_pressure_pa r.p1_exp_ADC
  let p2_Pa := adc_to_pressure_pa r.p2_ADC
  let flow_rate := venturi_flow_rate (max p1_ins_Pa p1_exp_Pa) p2_Pa
  if p1_exp_Pa > p1_ins_Pa then -flow_rate else flow_rate

/-- Source: flow_vs_time (src/cpap_analysis.py lines 75-153): emit one
(time, flow_rate) pair per raw row. -/
def flow_vs_time (data : List RawRow) : List (ℝ × ℝ) :=
  data.map (fun r => (r.time, rowFlowRate r))

/-- Modelled from scipy.signal.butter(2, w, btype="lowpass", output="sos")
for a valid normalized cutoff 0 < w < 1: the closed form of the bilinear
transform of the order-2 Butterworth analog prototype, with K = tan(pi w / 2).
The claims proved below never depend on these coefficient values (they hold
for every SosSection), so only the shape of this definition matters. -/
def butterLowpassSos2 (w : ℝ) : SosSection ℝ :=
  let K := Real.tan (Real.pi * w / 2)
  let den := 1 + Real.sqrt 2 * K + K ^ 2
  { b0 := K ^ 2 / den
    b1 := 2 * K ^ 2 / den
    b2 := K ^ 2 / den
    a1 := 2 * (K ^ 2 - 1) / den
    a2 := (1 - Real.sqrt 2 * K + K ^ 2) / den }

/-- Source: detect_peak_times (src/cpap_analysis.py lines 156-221) with the
concrete scipy Butterworth design and the real square root. -/
def detect_peak_times (data : List (ℝ × ℝ)) : Except String (List ℝ × List ℝ) :=
  detectPeakTimesAux butterLowpassSos2 Real.sqrt data

/-- Integer surrogate of cexFiltered: cexFiltered is the image of this list under the strictly monotone map cexScale, so peak-scan results decided on the surrogate transfer to the real-valued series. -/
def cexSurrogate : List ℤ :=
  0 :: ([1, 2, 1] ++ (List.replicate 77 0 ++ ([1, 2, 1] ++ [0])))

/-- Time axis of an 85-sample series with repeated timestamps: 84 zeros then 10.5 s. Mean sample spacing is (10.5 - 0)/84 = 1/8 s, so the detector infers fs = 8 Hz and normalized cutoff Wn = 2/(fs/2) = 1/2, where K = tan(pi/4) = 1 makes the Butterworth section coefficients exact expressions in sqrt 2. -/
def cexTime : List ℝ := List.replicate 84 0 ++ [21/2]

/-- Flow channel for the counterexample: two copies of the bump (1, 0, 3 - 2*sqrt 2), 80 samples apart, each of which returns the direct-form-II-transposed filter state exactly to (0, 0). -/
def cexFlow : List ℝ :=
  0 :: ([1, 0, 3 - 2*Real.sqrt 2] ++
    (List.replicate 77 0 ++ ([1, 0, 3 - 2*Real.sqrt 2] ++ [0])))

/-- The counterexample input series: cexTime zipped with cexFlow. -/
def cexData : List (ℝ × ℝ) := List.zip cexTime cexFlow

/-- The sosfilt output on cexFlow (established in cex_sosfilt): each bump yields (B, 2B, B) with B = (2 - sqrt 2)/2. Its local maxima sit at indices 2 and 82, exactly 80 apart. -/
def cexFiltered : List ℝ :=
  0 :: ([(2 - Real.sqrt 2)/2, 2 - Real.sqrt 2, (2 - Real.sqrt 2)/2] ++
    (List.replicate 77 0 ++
      ([(2 - Real.sqrt 2)/2, 2 - Real.sqrt 2, (2 - Real.sqrt 2)/2] ++ [0])))

/-- Strictly monotone linear correspondence between the integer surrogate and the filtered series: cexScale q = q * (2 - sqrt 2)/2. -/
def cexScale : ℤ → ℝ := fun q => (q:ℝ) * ((2 - Real.sqrt 2)/2)

end RealDefs

end CPAP

/- ## Helper lemmas -/

namespace CPAP

section ListHelpers

variable {γ : Type}

theorem maskFilter_sublist : ∀ (l : List γ) (bs : List Bool),
    List.Sublist (maskFilter l bs) l := by
  intro l
  induction l with
  | nil => intro bs; cases bs <;> simp [maskFilter]
  | cons a t ih =>
      intro bs
      cases bs with
      | nil => simp [maskFilter]
      | cons b bs' =>
          by_cases hb : b = true
          · subst hb
            simpa [maskFilter] using List.Sublist.cons₂ a (ih bs')
          · simp only [Bool.not_eq_true] at hb
            subst hb
            simpa [maskFilter] using List.Sublist.cons a (ih bs')

theorem mapGetD_sublist (d : γ) :
    ∀ (l : List γ) (is : List ℕ), is.Pairwise (· < ·) →
      (∀ i ∈ is, i < l.length) →
      List.Sublist (is.map (fun i => l.getD i d)) l := by
  intro l
  induction l with
  | nil =>
      intro is hp hb
      cases is with
      | nil => simp
      | cons i t => exact absurd (hb i (by simp)) (by simp)
  | cons a t ih =>
      intro is hp hb
      cases is with
      | nil => simp
      | cons i it =>
          have hit_pos : ∀ j ∈ it, i < j := fun j hj => List.rel_of_pairwise_cons hp hj
          have hshift : ∀ (js : List ℕ), (∀ j ∈ js, 1 ≤ j) →
              js.map (fun j => (a :: t).getD j d) =
                (js.map (fun j => j - 1)).map (fun j => t.getD j d) := by
            intro js h1
            rw [List.map_map]
            apply List.map_congr_left
            intro j hj
            obtain ⟨j', rfl⟩ : ∃ j', j = j' + 1 := ⟨j - 1, by have := h1 j hj; omega⟩
            simp [List.getD_cons_succ]
          rcases Nat.eq_zero_or_pos i with hi | hi
          · subst hi
            have h1 : ∀ j ∈ it, 1 ≤ j := fun j hj => hit_pos j hj
            simp only [List.map_cons, List.getD_cons_zero]
            rw [hshift it h1]
            refine List.Sublist.cons₂ a (ih _ ?_ ?_)
            · rw [List.pairwise_map]
              refine (List.pairwise_cons.mp hp).2.imp_of_mem ?_
              intro x y hx hy hxy
              have := h1 x hx
              omega
            · intro j hj
              simp only [List.mem_map] at hj
              obtain ⟨j', hj', rfl⟩ := hj
              have := hb j' (by simp [hj'])
              have := h1 j' hj'
              simp only [List.length_cons] at *
              omega
          · have h1 : ∀ j ∈ i :: it, 1 ≤ j := by
              intro j hj
              rcases List.mem_cons.mp hj with rfl | hj
              · omega
              · have := hit_pos j hj; omega
            rw [hshift (i :: it) h1]
            refine List.Sublist.cons a (ih _ ?_ ?_)
            · rw [List.pairwise_map]
              refine hp.imp_of_mem ?_
              intro x y hx hy hxy
              have := h1 x hx
              omega
            · intro j hj
              simp only [List.mem_map] at hj
              obtain ⟨j', hj', rfl⟩ := hj
              have := hb j' hj'
              have := h1 j' hj'
              simp only [List.length_cons] at *
              omega

theorem mapGetD_pairwise (d : γ) (lt : γ → γ → Prop) (l : List γ) (is : List ℕ)
    (hp : is.Pairwise (· < ·)) (hb : ∀ i ∈ is, i < l.length)
    (hl : l.Pairwise lt) :
    (is.map (fun i => l.getD i d)).Pairwise lt := by
  rw [List.pairwise_map]
  refine hp.imp_of_mem ?_
  intro x y hx hy hxy
  have hxl := hb x hx
  have hyl := hb y hy
  rw [List.getD_eq_getElem l d hxl, List.getD_eq_getElem l d hyl]
  exact List.pairwise_iff_getElem.mp hl x y hxl hyl hxy

theorem eq_of_map_fst_snd : ∀ (l l' : List (γ × γ)),
    l.map Prod.fst = l'.map Prod.fst → l.map Prod.snd = l'.map Prod.snd → l = l' := by
  intro l
  induction l with
  | nil => intro l' h1 _; cases l' <;> simp_all
  | cons p t ih =>
      intro l' h1 h2
      cases l' with
      | nil => simp_all
      | cons q t' =>
          simp only [List.map_cons, List.cons.injEq] at h1 h2
          have : p = q := Prod.ext h1.1 h2.1
          exact this ▸ (ih t' h1.2 h2.2) ▸ rfl

end ListHelpers

end CPAP

namespace CPAP

section PeakLemmas

variable {α : Type} [LinearOrderedField α]

theorem plateauLen_add_le (x : List α) (iMax : ℕ) (v : α) :
    ∀ j : ℕ, j ≤ iMax → j + plateauLen x iMax v j ≤ iMax := by
  intro j
  induction j using plateauLen.induct x iMax v with
  | case1 j h ih =>
      intro _
      rw [plateauLen, dif_pos h]
      have := ih (by omega)
      omega
  | case2 j h =>
      intro hj
      rw [plateauLen, dif_neg h]
      omega

theorem lmGo_mem (x : List α) (iMax : ℕ) :
    ∀ i, ∀ m ∈ lmGo x iMax i, i ≤ m ∧ m < iMax := by
  intro i
  induction i using lmGo.induct x iMax with
  | case1 i h1 h2 j h3 ih =>
      intro m hm
      have hj : j = i + 1 + plateauLen x iMax (x.getD i 0) (i + 1) := rfl
      have hjle : i + 1 + plateauLen x iMax (x.getD i 0) (i + 1) ≤ iMax :=
        plateauLen_add_le x iMax (x.getD i 0) (i + 1) (by omega)
      rw [lmGo, dif_pos h1, if_pos h2] at hm
      rw [show (if x.getD (i + 1 + plateauLen x iMax (x.getD i 0) (i + 1)) 0 < x.getD i 0
            then (i + (i + 1 + plateauLen x iMax (x.getD i 0) (i + 1) - 1)) / 2 ::
              lmGo x iMax (i + 1 + plateauLen x iMax (x.getD i 0) (i + 1) + 1)
            else lmGo x iMax (i + 1)) =
          ((i + (j - 1)) / 2 :: lmGo x iMax (j + 1)) from if_pos h3] at hm
      rcases List.mem_cons.mp hm with rfl | hm
      · omega
      · have := ih m hm
        omega
  | case2 i h1 h2 j h3 ih =>
      intro m hm
      have hj : j = i + 1 + plateauLen x iMax (x.getD i 0) (i + 1) := rfl
      rw [lmGo, dif_pos h1, if_pos h2] at hm
      rw [show (if x.getD (i + 1 + plateauLen x iMax (x.getD i 0) (i + 1)) 0 < x.getD i 0
            then (i + (i + 1 + plateauLen x iMax (x.getD i 0) (i + 1) - 1)) / 2 ::
              lmGo x iMax (i + 1 + plateauLen x iMax (x.getD i 0) (i + 1) + 1)
            else lmGo x iMax (i + 1)) = lmGo x iMax (i + 1) from if_neg h3] at hm
      have := ih m hm
      omega
  | case3 i h1 h2 ih =>
      intro m hm
      rw [lmGo, dif_pos h1, if_neg h2] at hm
      have := ih m hm
      omega
  | case4 i h1 =>
      intro m hm
      rw [lmGo, dif_neg h1] at hm
      simp at hm

theorem lmGo_pairwise (x : List α) (iMax : ℕ) :
    ∀ i, (lmGo x iMax i).Pairwise (· < ·) := by
  intro i
  induction i using lmGo.induct x iMax with
  | case1 i h1 h2 j h3 ih =>
      have hj : j = i + 1 + plateauLen x iMax (x.getD i 0) (i + 1) := rfl
      rw [lmGo, dif_pos h1, if_pos h2]
      rw [show (if x.getD (i + 1 + plateauLen x iMax (x.getD i 0) (i + 1)) 0 < x.getD i 0
            then (i + (i + 1 + plateauLen x iMax (x.getD i 0) (i + 1) - 1)) / 2 ::
              lmGo x iMax (i + 1 + plateauLen x iMax (x.getD i 0) (i + 1) + 1)
            else lmGo x iMax (i + 1)) =
          ((i + (j - 1)) / 2 :: lmGo x iMax (j + 1)) from if_pos h3]
      refine List.pairwise_cons.mpr ⟨?_, ih⟩
      intro m hm
      have := (lmGo_mem x iMax (j + 1) m hm).1
      omega
  | case2 i h1 h2 j h3 ih =>
      rw [lmGo, dif_pos h1, if_pos h2]
      rw [show (if x.getD (i + 1 + plateauLen x iMax (x.getD i 0) (i + 1)) 0 < x.getD i 0
            then (i + (i + 1 + plateauLen x iMax (x.getD i 0) (i + 1) - 1)) / 2 ::
              lmGo x iMax (i + 1 + plateauLen x iMax (x.getD i 0) (i + 1) + 1)
            else lmGo x iMax (i + 1)) = lmGo x iMax (i + 1) from if_neg h3]
      exact ih
  | case3 i h1 h2 ih =>
      rw [lmGo, dif_pos h1, if_neg h2]
      exact ih
  | case4 i h1 =>
      rw [lmGo, dif_neg h1]
      exact List.Pairwise.nil

theorem localMaxima_pairwise (x : List α) : (localMaxima x).Pairwise (· < ·) :=
  lmGo_pairwise x (x.length - 1) 1

theorem localMaxima_bound (x : List α) : ∀ m ∈ localMaxima x, m < x.length := by
  intro m hm
  have := (lmGo_mem x (x.length - 1) 1 m hm).2
  omega

theorem findPeaks_sublist (x : List α) (hmin : α) (dist : ℕ) (pmin : α) :
    List.Sublist (findPeaks x hmin dist pmin) (localMaxima x) := by
  unfold findPeaks
  refine List.Sublist.trans (List.filter_sublist _) ?_
  exact List.Sublist.trans (maskFilter_sublist _ _) (List.filter_sublist _)

theorem findPeaks_pairwise (x : List α) (hmin : α) (dist : ℕ) (pmin : α) :
    (findPeaks x hmin dist pmin).Pairwise (· < ·) :=
  (localMaxima_pairwise x).sublist (findPeaks_sublist x hmin dist pmin)

theorem findPeaks_bound (x : List α) (hmin : α) (dist : ℕ) (pmin : α) :
    ∀ m ∈ findPeaks x hmin dist pmin, m < x.length := by
  intro m hm
  exact localMaxima_bound x m ((findPeaks_sublist x hmin dist pmin).subset hm)

theorem sosfilt_length (c : SosSection α) :
    ∀ (l : List α) (z1 z2 : α), (sosfilt c l z1 z2).length = l.length := by
  intro l
  induction l with
  | nil => intro z1 z2; simp [sosfilt]
  | cons xn rest ih => intro z1 z2; simp [sosfilt, ih]

/-- Inversion of the success path of detectPeakTimesAux: a returned
peak-times list is the findPeaks output on the filtered signal, mapped back
through the input time axis, and the filtered signal has the input's length. -/
theorem detect_ok_inv (design : α → SosSection α) (sqrtF : α → α)
    (data : List (α × α)) (pts filt : List α)
    (h : detectPeakTimesAux design sqrtF data = Except.ok (pts, filt)) :
    filt.length = (data.map Prod.fst).length ∧
      ∃ pmin, pts = (findPeaks filt 0.00009 80 pmin).map
        (fun i => (data.map Prod.fst).getD i 0) := by
  unfold detectPeakTimesAux at h
  by_cases hemp : data.isEmpty
  · rw [if_pos hemp] at h
    exact absurd h (by simp)
  · rw [if_neg hemp] at h
    simp only at h
    split at h
    · exact absurd h (by simp)
    · exact absurd h (by simp)
    · exact absurd h (by simp)
    · rename_i w hw
      split at h
      · exact absurd h (by simp)
      · split at h
        · exact absurd h (by simp)
        · simp only [Except.ok.injEq, Prod.mk.injEq] at h
          obtain ⟨hpts, hfilt⟩ := h
          subst hfilt
          constructor
          · rw [sosfilt_length]
            simp
          · exact ⟨_, hpts.symm⟩

end PeakLemmas

end CPAP

namespace CPAP

section AnalysisHelpers

variable {α : Type} [LinearOrderedField α]

theorem npDiff_cons_cons (a b : α) (l : List α) :
    npDiff (a :: b :: l) = (b - a) :: npDiff (b :: l) := rfl

theorem npDiff_length (l : List α) : (npDiff l).length = l.length - 1 := by
  rw [npDiff, List.length_zipWith, List.length_tail]
  omega

theorem npDiff_eq_zero_of_const (l : List α) (c : α) (hc : ∀ y ∈ l, y = c) :
    ∀ d ∈ npDiff l, d = 0 := by
  induction l with
  | nil => simp [npDiff]
  | cons a t ih =>
      cases t with
      | nil => simp [npDiff]
      | cons b r =>
          intro d hd
          rw [npDiff_cons_cons] at hd
          rcases List.mem_cons.mp hd with rfl | hd
          · rw [hc a (by simp), hc b (by simp)]
            ring
          · exact ih (fun y hy => hc y (List.mem_cons_of_mem a hy)) d hd

theorem npTrapz_cons_cons (a b : α × α) (l : List (α × α)) :
    npTrapz (a :: b :: l) = (b.1 - a.1) * (a.2 + b.2) / 2 + npTrapz (b :: l) := by
  simp [npTrapz]

theorem npTrapz_neg_flows (l : List (α × α)) :
    npTrapz (l.map (fun p => (p.1, -p.2))) = -npTrapz l := by
  induction l with
  | nil => simp [npTrapz]
  | cons p t ih =>
      cases t with
      | nil => simp [npTrapz]
      | cons q r =>
          have hmap : (q :: r).map (fun p : α × α => (p.1, -p.2)) =
              (q.1, -q.2) :: r.map (fun p : α × α => (p.1, -p.2)) := rfl
          calc npTrapz ((p :: q :: r).map (fun p : α × α => (p.1, -p.2)))
              = ((q.1, -q.2).1 - (p.1, -p.2).1) * ((p.1, -p.2).2 + (q.1, -q.2).2) / 2 +
                npTrapz ((q :: r).map (fun p : α × α => (p.1, -p.2))) := by
                rw [List.map_cons, hmap, npTrapz_cons_cons]
            _ = -((q.1 - p.1) * (p.2 + q.2) / 2) + -npTrapz (q :: r) := by
                rw [ih]
                ring_nf
            _ = -npTrapz (p :: q :: r) := by
                rw [npTrapz_cons_cons]
                ring

end AnalysisHelpers

section RealHelpers

theorem A1_pos : 0 < A1 := by
  rw [A1, d1]
  positivity

theorem A1_div_A2_eq : A1 / A2 = 25 / 16 := by
  rw [A1, A2, d1, d2]
  rw [div_eq_div_iff (by positivity) (by norm_num)]
  ring

theorem venturi_denominator_pos : 0 < moist_air_density * ((A1 / A2) ^ 2 - 1) := by
  rw [moist_air_density, A1_div_A2_eq]
  norm_num

theorem venturi_nonneg (p_up p_down : ℝ) : 0 ≤ venturi_flow_rate p_up p_down :=
  mul_nonneg A1_pos.le (Real.sqrt_nonneg _)

/-- Shared sign analysis of rowFlowRate: the emitted flow is nonpositive on
the negation branch (expiration pascal pressure strictly above inspiration)
and nonnegative otherwise. -/
theorem rowFlowRate_sign (r : RawRow) :
    (adc_to_pressure_pa r.p1_ins_ADC < adc_to_pressure_pa r.p1_exp_ADC →
      rowFlowRate r ≤ 0) ∧
    (adc_to_pressure_pa r.p1_exp_ADC ≤ adc_to_pressure_pa r.p1_ins_ADC →
      0 ≤ rowFlowRate r) := by
  constructor
  · intro hgt
    rw [rowFlowRate, if_pos (by exact hgt)]
    simp only [neg_nonpos]
    exact venturi_nonneg _ _
  · intro hle
    rw [rowFlowRate, if_neg (by exact not_lt.mpr hle)]
    exact venturi_nonneg _ _

theorem adc_to_pressure_pa_strictMono {x y : ℝ} (h : x < y) :
    adc_to_pressure_pa x < adc_to_pressure_pa y := by
  unfold adc_to_pressure_pa adc_to_cmH2O
  have h2 : (0:ℝ) < 25.4 / (14745 - 1638) := by norm_num
  have h3 := mul_lt_mul_of_pos_left (sub_lt_sub_right h (1638:ℝ)) h2
  exact mul_lt_mul_of_pos_right h3 (by norm_num)

end RealHelpers

end CPAP

namespace CPAP

section FueledScanLemmas

variable {α : Type} [LinearOrder α] [Zero α] [Sub α]

theorem plateauLenF_eq (x : List α) (iMax : ℕ) (v : α) :
    ∀ (fuel j : ℕ), iMax ≤ j + fuel →
      plateauLenF x iMax v fuel j = plateauLen x iMax v j := by
  intro fuel
  induction fuel with
  | zero =>
      intro j hj
      rw [plateauLenF, plateauLen, dif_neg]
      rintro ⟨h1, -⟩
      omega
  | succ fuel ih =>
      intro j hj
      by_cases h : j < iMax ∧ x.getD j 0 = v
      · rw [plateauLenF, if_pos h, plateauLen, dif_pos h, ih (j+1) (by omega)]
      · rw [plateauLenF, if_neg h, plateauLen, dif_neg h]

theorem lmGo_unfold (x : List α) (iMax i : ℕ) :
    lmGo x iMax i =
      if i < iMax then
        if x.getD (i - 1) 0 < x.getD i 0 then
          if x.getD (i + 1 + plateauLen x iMax (x.getD i 0) (i + 1)) 0 < x.getD i 0 then
            (i + (i + 1 + plateauLen x iMax (x.getD i 0) (i + 1) - 1)) / 2 ::
              lmGo x iMax (i + 1 + plateauLen x iMax (x.getD i 0) (i + 1) + 1)
          else lmGo x iMax (i + 1)
        else lmGo x iMax (i + 1)
      else [] := by
  rw [lmGo]
  rfl

theorem lmGoF_eq (x : List α) (iMax : ℕ) :
    ∀ (fuel i : ℕ), iMax ≤ i + fuel → lmGoF x iMax fuel i = lmGo x iMax i := by
  intro fuel
  induction fuel with
  | zero =>
      intro i hi
      rw [lmGoF, lmGo_unfold, if_neg (by omega)]
  | succ fuel ih =>
      intro i hi
      by_cases h1 : i < iMax
      · rw [lmGoF, if_pos h1, lmGo_unfold, if_pos h1,
          plateauLenF_eq x iMax _ iMax (i+1) (by omega)]
        by_cases h2 : x.getD (i - 1) 0 < x.getD i 0
        · rw [if_pos h2, if_pos h2]
          by_cases h3 : x.getD (i + 1 + plateauLen x iMax (x.getD i 0) (i + 1)) 0 <
              x.getD i 0
          · rw [if_pos h3, if_pos h3, ih _ (by omega)]
          · rw [if_neg h3, if_neg h3, ih _ (by omega)]
        · rw [if_neg h2, if_neg h2, ih _ (by omega)]
      · rw [lmGoF, if_neg h1, lmGo_unfold, if_neg h1]

theorem localMaximaF_eq (x : List α) : localMaximaF x = localMaxima x := by
  rw [localMaximaF, localMaxima, lmGoF_eq x (x.length - 1) x.length 1 (by omega)]

theorem promLeftMin_unfold (x : List α) (xp : α) (i : ℕ) (lmin : α) :
    promLeftMin x xp i lmin =
      if x.getD i 0 ≤ xp then
        if i = 0 then (if x.getD i 0 < lmin then x.getD i 0 else lmin)
        else promLeftMin x xp (i - 1) (if x.getD i 0 < lmin then x.getD i 0 else lmin)
      else lmin := by
  rw [promLeftMin]

theorem promLeftMinF_eq (x : List α) (xp : α) :
    ∀ (fuel i : ℕ) (lmin : α), i < fuel →
      promLeftMinF x xp fuel i lmin = promLeftMin x xp i lmin := by
  intro fuel
  induction fuel with
  | zero => intro i lmin hi; omega
  | succ fuel ih =>
      intro i lmin hi
      rw [promLeftMinF, promLeftMin_unfold]
      by_cases h : x.getD i 0 ≤ xp
      · rw [if_pos h, if_pos h]
        by_cases h0 : i = 0
        · rw [if_pos h0, if_pos h0]
        · rw [if_neg h0, if_neg h0, ih _ _ (by omega)]
      · rw [if_neg h, if_neg h]

theorem promRightMin_unfold (x : List α) (xp : α) (n i : ℕ) (rmin : α) :
    promRightMin x xp n i rmin =
      if i < n ∧ x.getD i 0 ≤ xp then
        promRightMin x xp n (i + 1) (if x.getD i 0 < rmin then x.getD i 0 else rmin)
      else rmin := by
  rw [promRightMin]
  rfl

theorem promRightMinF_eq (x : List α) (xp : α) (n : ℕ) :
    ∀ (fuel i : ℕ) (rmin : α), n ≤ i + fuel →
      promRightMinF x xp n fuel i rmin = promRightMin x xp n i rmin := by
  intro fuel
  induction fuel with
  | zero =>
      intro i rmin hi
      rw [promRightMinF, promRightMin_unfold, if_neg]
      rintro ⟨h1, -⟩
      omega
  | succ fuel ih =>
      intro i rmin hi
      rw [promRightMinF, promRightMin_unfold]
      by_cases h : i < n ∧ x.getD i 0 ≤ xp
      · rw [if_pos h, if_pos h, ih _ _ (by omega)]
      · rw [if_neg h, if_neg h]

theorem peakProminenceF_eq (x : List α) (p : ℕ) :
    peakProminenceF x p = peakProminence x p := by
  rw [peakProminenceF, peakProminence,
    promLeftMinF_eq x _ (p + 1) p _ (by omega),
    promRightMinF_eq x _ x.length (x.length + 1) p _ (by omega)]

end FueledScanLemmas

section MapTransfer

variable {α β : Type} [LinearOrder α] [Zero α] [LinearOrder β] [Zero β]

theorem getD_map_zero (f : α → β) (hf0 : f 0 = 0) (l : List α) (i : ℕ) :
    (l.map f).getD i 0 = f (l.getD i 0) := by
  by_cases h : i < l.length
  · rw [List.getD_eq_getElem _ _ (by simpa using h), List.getD_eq_getElem _ _ h]
    simp
  · rw [List.getD_eq_default _ _ (by simpa using not_lt.mp h),
      List.getD_eq_default _ _ (not_lt.mp h), hf0]

theorem plateauLen_map (f : α → β) (hmono : StrictMono f) (hf0 : f 0 = 0)
    (l : List α) (iMax : ℕ) (v : α) :
    ∀ j, plateauLen (l.map f) iMax (f v) j = plateauLen l iMax v j := by
  intro j
  induction j using plateauLen.induct l iMax v with
  | case1 j h ih =>
      have h2 : j < iMax ∧ (l.map f).getD j 0 = f v :=
        ⟨h.1, by rw [getD_map_zero f hf0, h.2]⟩
      conv_lhs => rw [plateauLen]
      conv_rhs => rw [plateauLen]
      rw [dif_pos h, dif_pos h2, ih]
  | case2 j h =>
      have h2 : ¬(j < iMax ∧ (l.map f).getD j 0 = f v) := by
        intro hc
        exact h ⟨hc.1, hmono.injective (by rw [← getD_map_zero f hf0]; exact hc.2)⟩
      conv_lhs => rw [plateauLen]
      conv_rhs => rw [plateauLen]
      rw [dif_neg h, dif_neg h2]

theorem lmGo_map (f : α → β) (hmono : StrictMono f) (hf0 : f 0 = 0)
    (l : List α) (iMax : ℕ) :
    ∀ i, lmGo (l.map f) iMax i = lmGo l iMax i := by
  intro i
  induction i using lmGo.induct l iMax with
  | case1 i h1 h2 j h3 ih =>
      have ih2 : lmGo (l.map f) iMax
          (i + 1 + plateauLen l iMax (l.getD i 0) (i + 1) + 1) =
          lmGo l iMax (i + 1 + plateauLen l iMax (l.getD i 0) (i + 1) + 1) := ih
      conv_lhs => rw [lmGo]
      conv_rhs => rw [lmGo]
      simp only [getD_map_zero f hf0, hmono.lt_iff_lt, plateauLen_map f hmono hf0]
      rw [dif_pos h1, dif_pos h1, if_pos h2, if_pos h2, if_pos h3, if_pos h3, ih2]
  | case2 i h1 h2 j h3 ih =>
      have ih2 : lmGo (l.map f) iMax (i + 1) = lmGo l iMax (i + 1) := ih
      conv_lhs => rw [lmGo]
      conv_rhs => rw [lmGo]
      simp only [getD_map_zero f hf0, hmono.lt_iff_lt, plateauLen_map f hmono hf0]
      rw [dif_pos h1, dif_pos h1, if_pos h2, if_pos h2, if_neg h3, if_neg h3, ih2]
  | case3 i h1 h2 ih =>
      conv_lhs => rw [lmGo]
      conv_rhs => rw [lmGo]
      simp only [getD_map_zero f hf0, hmono.lt_iff_lt, plateauLen_map f hmono hf0]
      rw [dif_pos h1, dif_pos h1, if_neg h2, if_neg h2, ih]
  | case4 i h1 =>
      conv_lhs => rw [lmGo]
      conv_rhs => rw [lmGo]
      rw [dif_neg h1, dif_neg h1]

theorem localMaxima_map (f : α → β) (hmono : StrictMono f) (hf0 : f 0 = 0)
    (l : List α) : localMaxima (l.map f) = localMaxima l := by
  rw [localMaxima, localMaxima, List.length_map, lmGo_map f hmono hf0]

theorem promLeftMin_map (f : α → β) (hmono : StrictMono f) (hf0 : f 0 = 0)
    (l : List α) (xp : α) :
    ∀ (i : ℕ) (lmin : α),
      promLeftMin (l.map f) (f xp) i (f lmin) = f (promLeftMin l xp i lmin) := by
  intro i lmin
  induction i, lmin using promLeftMin.induct l xp with
  | case1 lmin h =>
      conv_lhs => rw [promLeftMin]
      conv_rhs => rw [promLeftMin]
      simp only [getD_map_zero f hf0, hmono.lt_iff_lt, hmono.le_iff_le, ← apply_ite f]
      rw [if_pos h, if_pos h]
      simp
  | case2 i lmin h lmin1 hne ih =>
      have ih2 : promLeftMin (List.map f l) (f xp) (i - 1)
          (f (if l.getD i 0 < lmin then l.getD i 0 else lmin)) =
          f (promLeftMin l xp (i - 1) (if l.getD i 0 < lmin then l.getD i 0 else lmin)) := ih
      conv_lhs => rw [promLeftMin]
      conv_rhs => rw [promLeftMin]
      simp only [getD_map_zero f hf0, hmono.lt_iff_lt, hmono.le_iff_le, ← apply_ite f]
      rw [if_pos h, if_pos h, if_neg hne, if_neg hne, ih2]
  | case3 i lmin h =>
      conv_lhs => rw [promLeftMin]
      conv_rhs => rw [promLeftMin]
      simp only [getD_map_zero f hf0, hmono.lt_iff_lt, hmono.le_iff_le]
      rw [if_neg h, if_neg h]

theorem promRightMin_map (f : α → β) (hmono : StrictMono f) (hf0 : f 0 = 0)
    (l : List α) (xp : α) (n : ℕ) :
    ∀ (i : ℕ) (rmin : α),
      promRightMin (l.map f) (f xp) n i (f rmin) = f (promRightMin l xp n i rmin) := by
  intro i rmin
  induction i, rmin using promRightMin.induct l xp n with
  | case1 i rmin h ih =>
      have h2 : i < n ∧ (l.map f).getD i 0 ≤ f xp :=
        ⟨h.1, by rw [getD_map_zero f hf0, hmono.le_iff_le]; exact h.2⟩
      conv_lhs => rw [promRightMin]
      conv_rhs => rw [promRightMin]
      have ih2 : promRightMin (List.map f l) (f xp) n (i + 1)
          (f (if l.getD i 0 < rmin then l.getD i 0 else rmin)) =
          f (promRightMin l xp n (i + 1) (if l.getD i 0 < rmin then l.getD i 0 else rmin)) := ih
      rw [dif_pos h2, dif_pos h]
      simp only [getD_map_zero f hf0, hmono.lt_iff_lt, ← apply_ite f]
      rw [ih2]
  | case2 i rmin h =>
      have h2 : ¬(i < n ∧ (l.map f).getD i 0 ≤ f xp) := by
        intro hc
        exact h ⟨hc.1, by rw [← hmono.le_iff_le, ← getD_map_zero f hf0]; exact hc.2⟩
      conv_lhs => rw [promRightMin]
      conv_rhs => rw [promRightMin]
      rw [dif_neg h2, dif_neg h]

end MapTransfer

theorem peakProminence_map {α β : Type} [LinearOrder α] [Zero α] [Sub α]
    [LinearOrder β] [Zero β] [Sub β]
    (f : α → β) (hmono : StrictMono f) (hf0 : f 0 = 0)
    (hsub : ∀ a b : α, f (a - b) = f a - f b)
    (l : List α) (p : ℕ) :
    peakProminence (l.map f) p = f (peakProminence l p) := by
  rw [peakProminence, peakProminence, getD_map_zero f hf0, List.length_map,
    promLeftMin_map f hmono hf0, promRightMin_map f hmono hf0,
    ← hmono.monotone.map_max, ← hsub]

theorem getD_replicate {γ : Type} (c d : γ) {n i : ℕ} (h : i < n) :
    (List.replicate n c).getD i d = c := by
  rw [List.getD_eq_getElem _ _ (by simpa using h)]
  simp

theorem npDiff_replicate_append {α : Type} [LinearOrderedField α] (c x : α) :
    ∀ k, npDiff (List.replicate (k + 1) c ++ [x]) = List.replicate k 0 ++ [x - c] := by
  intro k
  induction k with
  | zero => simp [npDiff]
  | succ k ih =>
      have h1 : List.replicate (k + 1 + 1) c ++ [x] =
          c :: (List.replicate (k + 1) c ++ [x]) := by
        rw [List.replicate_succ, List.cons_append]
      have h2 : List.replicate (k + 1) c ++ [x] =
          c :: (List.replicate k c ++ [x]) := by
        rw [List.replicate_succ, List.cons_append]
      rw [h1, h2, npDiff_cons_cons, ← h2, ih, List.replicate_succ, List.cons_append]
      simp

theorem sosfilt_zero_cons {α : Type} [LinearOrderedField α] (c : SosSection α)
    (l : List α) : sosfilt c (0 :: l) 0 0 = 0 :: sosfilt c l 0 0 := by
  simp [sosfilt]

theorem sosfilt_replicate_zero {α : Type} [LinearOrderedField α] (c : SosSection α) :
    ∀ (k : ℕ) (l : List α),
      sosfilt c (List.replicate k 0 ++ l) 0 0 =
        List.replicate k 0 ++ sosfilt c l 0 0 := by
  intro k
  induction k with
  | zero => intro l; simp
  | succ k ih =>
      intro l
      rw [List.replicate_succ, List.cons_append, sosfilt_zero_cons, ih]
      simp

theorem sum_sq_dev {α : Type} [LinearOrderedField α] (μ : α) :
    ∀ l : List α, (l.map (fun v => (v - μ)^2)).sum =
      (l.map (fun v => v^2)).sum - 2*μ*l.sum + l.length*μ^2 := by
  intro l
  induction l with
  | nil => simp
  | cons a t ih =>
      simp only [List.map_cons, List.sum_cons, List.length_cons, ih]
      push_cast
      ring

theorem npVariance_le_sumSq {α : Type} [LinearOrderedField α] (l : List α) :
    npVariance l ≤ (l.map (fun v => v^2)).sum / (l.length : α) := by
  rcases eq_or_ne l [] with rfl | hne
  · simp [npVariance]
  · have hn : (0:α) < l.length := by
      exact_mod_cast List.length_pos.mpr hne
    rw [npVariance, sum_sq_dev]
    have key : (l.map (fun v => v^2)).sum - 2*(l.sum/(l.length:α))*l.sum +
        (l.length:α)*(l.sum/(l.length:α))^2 =
        (l.map (fun v => v^2)).sum - l.sum^2/(l.length:α) := by
      field_simp
      ring
    rw [key]
    have h2 : (l.map (fun v => v^2)).sum - l.sum^2/(l.length:α) ≤
        (l.map (fun v => v^2)).sum := sub_le_self _ (by positivity)
    gcongr

theorem butter_half_coeffs :
    butterLowpassSos2 (1/2) =
      { b0 := 1/(2 + Real.sqrt 2), b1 := 2/(2 + Real.sqrt 2),
        b2 := 1/(2 + Real.sqrt 2), a1 := 0,
        a2 := (2 - Real.sqrt 2)/(2 + Real.sqrt 2) } := by
  rw [butterLowpassSos2]
  rw [show Real.pi * (1/2) / 2 = Real.pi / 4 by ring, Real.tan_pi_div_four]
  simp only [SosSection.mk.injEq]
  norm_num
  ring_nf
  simp

theorem cex_bump_step (l : List ℝ) :
    sosfilt (butterLowpassSos2 (1/2)) (1 :: 0 :: (3 - 2*Real.sqrt 2) :: l) 0 0 =
      (2 - Real.sqrt 2)/2 :: (2 - Real.sqrt 2) :: (2 - Real.sqrt 2)/2 ::
        sosfilt (butterLowpassSos2 (1/2)) l 0 0 := by
  have hs : Real.sqrt 2 ^ 2 = 2 := Real.sq_sqrt (by norm_num)
  have hne : (2:ℝ) + Real.sqrt 2 ≠ 0 := by positivity
  have hB : 1/(2 + Real.sqrt 2) = (2 - Real.sqrt 2)/2 := by
    rw [div_eq_div_iff hne (by norm_num : (2:ℝ) ≠ 0)]
    linear_combination hs
  have h2B : 2/(2 + Real.sqrt 2) = 2 - Real.sqrt 2 := by
    rw [div_eq_iff hne]
    linear_combination hs
  have hC : (2 - Real.sqrt 2)/(2 + Real.sqrt 2) = 3 - 2*Real.sqrt 2 := by
    rw [div_eq_iff hne]
    linear_combination 2*hs
  rw [butter_half_coeffs]
  simp only [sosfilt]
  congr 1
  · simp only [hB, h2B, hC]
    ring
  congr 1
  · simp only [hB, h2B, hC]
    ring
  congr 1
  · simp only [hB, h2B, hC]
    ring
  congr 1
  · simp only [hB, h2B, hC]
    ring
  · simp only [hB, h2B, hC]
    ring

end CPAP

namespace CPAP

theorem cexScale_mono : StrictMono cexScale := by
  intro a b h
  have hpos : (0:ℝ) < (2 - Real.sqrt 2)/2 := by
    have hs : Real.sqrt 2 ^ 2 = 2 := Real.sq_sqrt (by norm_num)
    nlinarith [Real.sqrt_nonneg 2]
  exact mul_lt_mul_of_pos_right (by exact_mod_cast h) hpos

theorem cexScale_zero : cexScale 0 = 0 := by simp [cexScale]

theorem cexScale_sub (a b : ℤ) : cexScale (a - b) = cexScale a - cexScale b := by
  simp only [cexScale]
  push_cast
  ring

theorem cexFiltered_eq_map : cexFiltered = cexSurrogate.map cexScale := by
  simp only [cexSurrogate, cexFiltered, List.map_cons, List.map_append,
    List.map_replicate, List.map_nil, cexScale, cexScale_zero]
  norm_num
  ring_nf

set_option maxRecDepth 10000 in
theorem cex_localMaxima : localMaxima cexFiltered = [2, 82] := by
  rw [cexFiltered_eq_map, localMaxima_map cexScale cexScale_mono cexScale_zero,
    ← localMaximaF_eq]
  decide

theorem cex_getD2 : cexFiltered.getD 2 0 = 2 - Real.sqrt 2 := by
  rw [cexFiltered_eq_map, getD_map_zero cexScale cexScale_zero,
    show cexSurrogate.getD 2 0 = 2 from by decide]
  simp [cexScale]
  ring

theorem cex_getD82 : cexFiltered.getD 82 0 = 2 - Real.sqrt 2 := by
  rw [cexFiltered_eq_map, getD_map_zero cexScale cexScale_zero,
    show cexSurrogate.getD 82 0 = 2 from by decide]
  simp [cexScale]
  ring

set_option maxRecDepth 10000 in
theorem cex_prom2 : peakProminence cexFiltered 2 = 2 - Real.sqrt 2 := by
  rw [cexFiltered_eq_map,
    peakProminence_map cexScale cexScale_mono cexScale_zero cexScale_sub,
    show peakProminence cexSurrogate 2 = 2 from by rw [← peakProminenceF_eq]; decide]
  simp [cexScale]
  ring

set_option maxRecDepth 10000 in
theorem cex_prom82 : peakProminence cexFiltered 82 = 2 - Real.sqrt 2 := by
  rw [cexFiltered_eq_map,
    peakProminence_map cexScale cexScale_mono cexScale_zero cexScale_sub,
    show peakProminence cexSurrogate 82 = 2 from by rw [← peakProminenceF_eq]; decide]
  simp [cexScale]
  ring

theorem cex_sosfilt :
    sosfilt (butterLowpassSos2 (1/2)) cexFlow 0 0 = cexFiltered := by
  rw [cexFlow, cexFiltered]
  rw [sosfilt_zero_cons]
  simp only [List.cons_append, List.nil_append]
  rw [cex_bump_step, sosfilt_replicate_zero, cex_bump_step, sosfilt_zero_cons]
  simp [sosfilt]

theorem cex_sumsq :
    (cexFiltered.map (fun v => v^2)).sum = 18 - 12*Real.sqrt 2 := by
  have hs : Real.sqrt 2 ^ 2 = 2 := Real.sq_sqrt (by norm_num)
  simp only [cexFiltered, List.map_cons, List.map_append, List.map_replicate,
    List.map_nil, List.sum_cons, List.sum_append, List.sum_replicate]
  norm_num
  linear_combination 3*hs

theorem cex_len : (cexFiltered.length : ℝ) = 85 := by
  simp [cexFiltered]

theorem cex_var_le : npVariance cexFiltered ≤ 0.0225 := by
  have h1 := npVariance_le_sumSq cexFiltered
  rw [cex_sumsq, cex_len] at h1
  have hsge : (1.35:ℝ) ≤ Real.sqrt 2 := by
    nlinarith [Real.sq_sqrt (by norm_num : (0:ℝ) ≤ 2), Real.sqrt_nonneg 2]
  nlinarith

theorem cex_pmin_le : Real.sqrt (npVariance cexFiltered) * 0.5 ≤ 0.075 := by
  have h1 : Real.sqrt (npVariance cexFiltered) ≤ 0.15 := by
    calc Real.sqrt (npVariance cexFiltered) ≤ Real.sqrt 0.0225 :=
          Real.sqrt_le_sqrt cex_var_le
    _ = 0.15 := by
          rw [show (0.0225:ℝ) = 0.15^2 by norm_num]
          exact Real.sqrt_sq (by norm_num)
  nlinarith [Real.sqrt_nonneg (npVariance cexFiltered)]

theorem cex_findPeaks :
    findPeaks cexFiltered 0.00009 80 (Real.sqrt (npVariance cexFiltered) * 0.5) =
      [2, 82] := by
  have hsq : Real.sqrt 2 ^ 2 = 2 := Real.sq_sqrt (by norm_num)
  have hsle : Real.sqrt 2 ≤ 1.5 := by nlinarith [Real.sqrt_nonneg 2]
  have hc2 : decide ((0.00009:ℝ) ≤ cexFiltered.getD 2 0) = true :=
    decide_eq_true (by rw [cex_getD2]; nlinarith)
  have hc82 : decide ((0.00009:ℝ) ≤ cexFiltered.getD 82 0) = true :=
    decide_eq_true (by rw [cex_getD82]; nlinarith)
  have hp2 : decide (Real.sqrt (npVariance cexFiltered) * 0.5 ≤
      peakProminence cexFiltered 2) = true :=
    decide_eq_true (by rw [cex_prom2]; nlinarith [cex_pmin_le])
  have hp82 : decide (Real.sqrt (npVariance cexFiltered) * 0.5 ≤
      peakProminence cexFiltered 82) = true :=
    decide_eq_true (by rw [cex_prom82]; nlinarith [cex_pmin_le])
  have hpri : ([2, 82].map (fun p => cexFiltered.getD p 0)) =
      [2 - Real.sqrt 2, 2 - Real.sqrt 2] := by
    simp only [List.map_cons, List.map_nil]
    rw [cex_getD2, cex_getD82]
  have horder : ((List.range 2).mergeSort (fun a b =>
      decide (([2 - Real.sqrt 2, 2 - Real.sqrt 2] : List ℝ).getD a 0 ≤
        ([2 - Real.sqrt 2, 2 - Real.sqrt 2] : List ℝ).getD b 0))) = [0, 1] := by
    rw [show List.range 2 = [0, 1] from rfl]
    apply List.mergeSort_of_sorted
    refine List.pairwise_cons.mpr ⟨?_, by simp⟩
    intro b hb
    rcases List.mem_singleton.mp hb with rfl
    simp
  have hsel : (selectByPeakDistance [2, 82]
      ([2 - Real.sqrt 2, 2 - Real.sqrt 2] : List ℝ) 80).toList = [true, true] := by
    simp only [selectByPeakDistance, List.length_cons, List.length_nil]
    rw [show (0:ℕ) + 1 + 1 = 2 from rfl]
    rw [horder, show ([0, 1] : List ℕ).reverse = [1, 0] from rfl]
    simp [distKeepLoop, clearLeft, clearRight, Array.getD]
  have hheight : ([2, 82].filter
      (fun p => decide ((0.00009:ℝ) ≤ cexFiltered.getD p 0))) = [2, 82] := by
    simp only [List.filter, hc2, hc82]
  simp only [findPeaks]
  rw [cex_localMaxima, hheight, hpri, hsel]
  rw [show maskFilter [2, 82] [true, true] = [2, 82] from rfl]
  simp only [List.filter, hp2, hp82]

theorem cexTime_len : cexTime.length = 85 := by
  simp [cexTime]

theorem cexFlow_len : cexFlow.length = 85 := by
  simp [cexFlow]

theorem cexData_fst : cexData.map Prod.fst = cexTime := by
  rw [cexData, List.map_fst_zip]
  rw [cexTime_len, cexFlow_len]

theorem cexData_snd : cexData.map Prod.snd = cexFlow := by
  rw [cexData, List.map_snd_zip]
  rw [cexTime_len, cexFlow_len]

theorem cexData_ne : cexData.isEmpty = false := by
  have h : cexData.length = 85 := by
    rw [cexData, List.length_zip, cexTime_len, cexFlow_len]
    simp
  rw [Bool.eq_false_iff]
  intro hc
  rw [List.isEmpty_iff] at hc
  rw [hc] at h
  simp at h

theorem cexTime_mean : npMean (npDiff cexTime) = NpF.num ((1:ℝ)/8) := by
  rw [cexTime, show (84:ℕ) = 83 + 1 from rfl, npDiff_replicate_append]
  rw [npMean]
  norm_num

theorem cex_detect :
    detect_peak_times cexData = Except.ok ([(0:ℝ), 0], cexFiltered) := by
  have hdiv1 : NpF.div (NpF.num (1:ℝ)) (NpF.num ((1:ℝ)/8)) = NpF.num 8 := by
    norm_num [NpF.div]
  have hdiv2 : NpF.div (NpF.num (8:ℝ)) (NpF.num (2:ℝ)) = NpF.num 4 := by
    norm_num [NpF.div]
  have hdiv3 : NpF.div (NpF.num (2:ℝ)) (NpF.num (4:ℝ)) = NpF.num (1/2) := by
    norm_num [NpF.div]
  have ht2 : cexTime.getD 2 0 = 0 := by
    rw [cexTime, List.getD_append, getD_replicate]
    · norm_num
    · simp
  have ht82 : cexTime.getD 82 0 = 0 := by
    rw [cexTime, List.getD_append, getD_replicate]
    · norm_num
    · simp
  rw [detect_peak_times, detectPeakTimesAux, cexData_ne]
  simp only [Bool.false_eq_true, if_false]
  rw [cexData_fst, cexData_snd, cexTime_mean, hdiv1, hdiv2, hdiv3]
  show (if (1:ℝ)/2 ≤ 0 then
      (Except.error "filter critical frequencies must be greater than 0" :
        Except String (List ℝ × List ℝ))
    else if 1 ≤ (1:ℝ)/2 then
      Except.error "Digital filter critical frequencies must be 0 < Wn < 1"
    else Except.ok
      ((findPeaks (sosfilt (butterLowpassSos2 ((1:ℝ)/2)) cexFlow 0 0) 0.00009 80
          (Real.sqrt (npVariance (sosfilt (butterLowpassSos2 ((1:ℝ)/2)) cexFlow 0 0)) *
            0.5)).map (fun i => cexTime.getD i 0),
        sosfilt (butterLowpassSos2 ((1:ℝ)/2)) cexFlow 0 0)) =
    Except.ok ([(0:ℝ), 0], cexFiltered)
  rw [if_neg (by norm_num), if_neg (by norm_num), cex_sosfilt, cex_findPeaks]
  simp only [List.map_cons, List.map_nil, ht2, ht82]

end CPAP

/- ## Claim theorems -/

namespace CPAP

/-- C1: for every flow series whose time axis has positive duration and every
peak-time sequence, the Metrics record returned by calculate_metrics satisfies
breaths = len(breath_times) and breath_rate_bpm = round(breaths/(duration/60), 3);
when the duration is nonpositive, breath_rate_bpm is 0. -/
theorem metrics_consistency {α : Type} [LinearOrderedField α] [FloorRing α]
    (data : List (α × α)) (pts : List α) (apneas : ℕ) (leak : α) (m : Metrics α)
    (hm : calculate_metrics data pts apneas leak = some m) :
    m.breaths = m.breath_times.length ∧
      (0 < axisDuration data →
        m.breath_rate_bpm = pyRound3 ((m.breaths : α) / (axisDuration data / 60))) ∧
      (axisDuration data ≤ 0 → m.breath_rate_bpm = 0) := by
  cases data with
  | nil => simp [calculate_metrics] at hm
  | cons p t =>
      rw [calculate_metrics] at hm
      have hm' := (Option.some.injEq _ _).mp hm
      subst hm'
      refine ⟨rfl, ?_, ?_⟩
      · intro hpos
        show pyRound3 (if 0 < axisDuration (p :: t) then
            ((pts.length : α) / (axisDuration (p :: t) / 60)) else 0) = _
        rw [if_pos hpos]
      · intro hnonpos
        show pyRound3 (if 0 < axisDuration (p :: t) then
            ((pts.length : α) / (axisDuration (p :: t) / 60)) else 0) = 0
        rw [if_neg (by exact not_lt.mpr hnonpos)]
        simp [pyRound3]

/-- Witness for C1 at a concrete input: a two-sample series of duration 10 s
with one detected breath gives breath_rate_bpm = round(1/(10/60), 3) = 6. -/
theorem metrics_consistency_witness :
    (calculate_metrics [((0:ℚ), 0), (10, 0)] [3] 0 0 =
      some { duration := 10, breaths := 1, breath_rate_bpm := 6,
             breath_times := [3], apnea_count := 0, leakage := 0 }) ∧
    (0 < axisDuration [((0:ℚ), 0), (10, 0)]) ∧
    ((1 : ℕ) = [(3:ℚ)].length ∧
      (0 < axisDuration [((0:ℚ), 0), (10, 0)] →
        (6:ℚ) = pyRound3 ((1 : ℚ) / (axisDuration [((0:ℚ), 0), (10, 0)] / 60))) ∧
      (axisDuration [((0:ℚ), 0), (10, 0)] ≤ 0 → (6:ℚ) = 0)) := by
  have hdur : axisDuration [((0:ℚ), 0), (10, 0)] = 10 := by
    norm_num [axisDuration]
  have hm : calculate_metrics [((0:ℚ), 0), (10, 0)] [3] 0 0 =
      some { duration := 10, breaths := 1, breath_rate_bpm := 6,
             breath_times := [3], apnea_count := 0, leakage := 0 } := by
    rw [calculate_metrics]
    rw [hdur]
    norm_num [pyRound3, round_eq, Int.floor_eq_iff]
  exact ⟨hm, by rw [hdur]; norm_num, metrics_consistency _ _ _ _ _ hm⟩

/-- C2: the apnea count equals the number of consecutive differences between
adjacent peak times strictly exceeding 10 seconds; zero or one peak yields
zero apneas; exactly two peaks 15 seconds apart yield one apnea. -/
theorem apnea_count_spec {α : Type} [LinearOrderedField α] :
    (∀ pts : List α, apnea_events pts =
      ((npDiff pts).filter (fun d => decide (10 < d))).length) ∧
    (∀ pts : List α, pts.length ≤ 1 → apnea_events pts = 0) ∧
    (∀ t : α, apnea_events [t, t + 15] = 1) := by
  refine ⟨fun pts => ?_, fun pts hlen => ?_, fun t => ?_⟩
  · rw [apnea_events, List.countP_eq_length_filter]
  · match pts, hlen with
    | [], _ => rfl
    | [a], _ => rfl
  · have h15 : t + 15 - t = 15 := by ring
    rw [apnea_events, npDiff]
    show List.countP _ [t + 15 - t] = 1
    rw [h15]
    have : (10:α) < 15 := by norm_num
    simp [List.countP_cons, this]

/-- Witness for C2: the one-peak hypothesis is satisfiable and gives count 0,
and the other conjuncts applied at concrete rational inputs. -/
theorem apnea_count_spec_witness :
    ([(5:ℚ)].length ≤ 1 ∧ apnea_events [(5:ℚ)] = 0) ∧
      apnea_events [(0:ℚ), 0 + 15] = 1 :=
  ⟨⟨by decide, apnea_count_spec.2.1 [(5:ℚ)] (by decide)⟩,
    apnea_count_spec.2.2 (0:ℚ)⟩

/-- C3: for a row with a non-negative radicand (p2 pascal pressure at most the
larger patient-side pascal pressure), the flow emitted by flow_vs_time for
that row is nonpositive when the expiration pascal pressure strictly exceeds
the inspiration pascal pressure and nonnegative otherwise. -/
theorem flow_sign_invariant (data : List RawRow) (r : RawRow) (hr : r ∈ data)
    (hrad : adc_to_pressure_pa r.p2_ADC ≤
      max (adc_to_pressure_pa r.p1_ins_ADC) (adc_to_pressure_pa r.p1_exp_ADC)) :
    (r.time, rowFlowRate r) ∈ flow_vs_time data ∧
      (adc_to_pressure_pa r.p1_ins_ADC < adc_to_pressure_pa r.p1_exp_ADC →
        rowFlowRate r ≤ 0) ∧
      (adc_to_pressure_pa r.p1_exp_ADC ≤ adc_to_pressure_pa r.p1_ins_ADC →
        0 ≤ rowFlowRate r) :=
  ⟨List.mem_map_of_mem _ hr, (rowFlowRate_sign r).1, (rowFlowRate_sign r).2⟩

/-- Witness for C3: a concrete row (ins tap 2000, exp tap 1800, constriction
tap 1700 ADC counts) has a valid radicand and, being inspiration-dominant,
a nonnegative emitted flow. -/
theorem flow_sign_invariant_witness :
    (adc_to_pressure_pa (RawRow.mk 0 1700 2000 1800).p2_ADC ≤
      max (adc_to_pressure_pa (RawRow.mk 0 1700 2000 1800).p1_ins_ADC)
        (adc_to_pressure_pa (RawRow.mk 0 1700 2000 1800).p1_exp_ADC)) ∧
    ((0:ℝ), rowFlowRate (RawRow.mk 0 1700 2000 1800)) ∈
      flow_vs_time [RawRow.mk 0 1700 2000 1800] ∧
    0 ≤ rowFlowRate (RawRow.mk 0 1700 2000 1800) := by
  have hrad : adc_to_pressure_pa (RawRow.mk 0 1700 2000 1800).p2_ADC ≤
      max (adc_to_pressure_pa (RawRow.mk 0 1700 2000 1800).p1_ins_ADC)
        (adc_to_pressure_pa (RawRow.mk 0 1700 2000 1800).p1_exp_ADC) := by
    refine le_trans ?_ (le_max_left _ _)
    norm_num [adc_to_pressure_pa, adc_to_cmH2O]
  have hle : adc_to_pressure_pa (RawRow.mk 0 1700 2000 1800).p1_exp_ADC ≤
      adc_to_pressure_pa (RawRow.mk 0 1700 2000 1800).p1_ins_ADC := by
    norm_num [adc_to_pressure_pa, adc_to_cmH2O]
  obtain ⟨hmem, _, hpos⟩ :=
    flow_sign_invariant [RawRow.mk 0 1700 2000 1800] (RawRow.mk 0 1700 2000 1800)
      (by simp) hrad
  exact ⟨hrad, hmem, hpos hle⟩

/-- C5: a negative trapezoidal integral is returned as-is converted to liters;
it is not clamped to zero and no error is raised, and the warning flag is the
only additional effect. -/
theorem leakage_no_clamp {α : Type} [LinearOrderedField α] (data : List (α × α))
    (hneg : npTrapz data < 0) :
    (calculate_leakage data).1 = npTrapz data * 1000 ∧
      (calculate_leakage data).1 < 0 ∧ (calculate_leakage data).2 = true := by
  refine ⟨rfl, ?_, ?_⟩
  · show npTrapz data * 1000 < 0
    nlinarith
  · show decide (npTrapz data * 1000 < 0) = true
    rw [decide_eq_true_eq]
    nlinarith

/-- Witness for C5: the series (0 s, 0 m³/s), (1 s, -2 m³/s) has trapezoidal
integral -1 m³, and calculate_leakage returns -1000 L with the warning flag. -/
theorem leakage_no_clamp_witness :
    npTrapz [((0:ℚ), 0), (1, -2)] < 0 ∧
      ((calculate_leakage [((0:ℚ), 0), (1, -2)]).1 =
          npTrapz [((0:ℚ), 0), (1, -2)] * 1000 ∧
        (calculate_leakage [((0:ℚ), 0), (1, -2)]).1 < 0 ∧
        (calculate_leakage [((0:ℚ), 0), (1, -2)]).2 = true) :=
  ⟨by norm_num [npTrapz], leakage_no_clamp _ (by norm_num [npTrapz])⟩

/-- C7: two flow series sharing a time axis with pointwise-negated flows get
leakage values of opposite sign and equal magnitude. -/
theorem leakage_antisymmetric {α : Type} [LinearOrderedField α]
    (dat1 dat2 : List (α × α))
    (ht : dat1.map Prod.fst = dat2.map Prod.fst)
    (hq : dat2.map Prod.snd = (dat1.map Prod.snd).map (fun q => -q)) :
    (calculate_leakage dat2).1 = -(calculate_leakage dat1).1 := by
  have h2 : dat2 = dat1.map (fun p => (p.1, -p.2)) := by
    apply eq_of_map_fst_snd
    · rw [← ht, List.map_map]
      rfl
    · rw [hq, List.map_map, List.map_map]
      rfl
  subst h2
  show npTrapz (dat1.map (fun p => (p.1, -p.2))) * 1000 = -(npTrapz dat1 * 1000)
  rw [npTrapz_neg_flows]
  ring

/-- Witness for C7 at concrete rational series: negating the flows of
[(0,1),(1,3)] flips the leakage sign. -/
theorem leakage_antisymmetric_witness :
    ([((0:ℚ), 1), (1, 3)].map Prod.fst = [((0:ℚ), -1), (1, -3)].map Prod.fst) ∧
    ([((0:ℚ), -1), (1, -3)].map Prod.snd =
      ([((0:ℚ), 1), (1, 3)].map Prod.snd).map (fun q => -q)) ∧
    (calculate_leakage [((0:ℚ), -1), (1, -3)]).1 =
      -(calculate_leakage [((0:ℚ), 1), (1, 3)]).1 :=
  ⟨by norm_num, by norm_num,
    leakage_antisymmetric _ _ (by norm_num) (by norm_num)⟩

/-- C8: for a fixed downstream pressure, the Venturi flow rate is monotone
increasing in the upstream pressure over the domain p_up ≥ p_down. -/
theorem venturi_monotone (p_down pu1 pu2 : ℝ) (h1 : p_down ≤ pu1) (h2 : pu1 ≤ pu2) :
    venturi_flow_rate pu1 p_down ≤ venturi_flow_rate pu2 p_down := by
  rw [venturi_flow_rate, venturi_flow_rate]
  refine mul_le_mul_of_nonneg_left ?_ A1_pos.le
  apply Real.sqrt_le_sqrt
  have hden := venturi_denominator_pos
  gcongr

/-- Witness for C8 at concrete pressures 0 ≤ 100 ≤ 200 Pa. -/
theorem venturi_monotone_witness :
    ((0:ℝ) ≤ 100) ∧ ((100:ℝ) ≤ 200) ∧
      venturi_flow_rate 100 0 ≤ venturi_flow_rate 200 0 :=
  ⟨by norm_num, by norm_num, venturi_monotone 0 100 200 (by norm_num) (by norm_num)⟩

/-- C9: the ADC-to-pressure conversion maps count 1638 to exactly 0 Pa and
count 14745 to exactly 25.4 * 98.0665 Pa. -/
theorem adc_calibration_points :
    adc_to_pressure_pa 1638 = 0 ∧ adc_to_pressure_pa 14745 = 25.4 * 98.0665 := by
  constructor <;> norm_num [adc_to_pressure_pa, adc_to_cmH2O]

/-- C10: the ADC-to-pascal conversion is strictly increasing, so the negation
branch of flow_vs_time fires exactly when the raw ADC counts satisfy
p1_exp_ADC > p1_ins_ADC, and (on the valid-radicand domain) the sign of the
emitted flow is determined by the ordering of the two raw patient-side
readings. -/
theorem flow_sign_from_raw_adc (r : RawRow) :
    (∀ x y : ℝ, x < y → adc_to_pressure_pa x < adc_to_pressure_pa y) ∧
    (adc_to_pressure_pa r.p1_ins_ADC < adc_to_pressure_pa r.p1_exp_ADC ↔
      r.p1_ins_ADC < r.p1_exp_ADC) ∧
    (adc_to_pressure_pa r.p2_ADC ≤
        max (adc_to_pressure_pa r.p1_ins_ADC) (adc_to_pressure_pa r.p1_exp_ADC) →
      ((r.p1_ins_ADC < r.p1_exp_ADC → rowFlowRate r ≤ 0) ∧
        (r.p1_exp_ADC ≤ r.p1_ins_ADC → 0 ≤ rowFlowRate r))) := by
  have hiff : ∀ x y : ℝ,
      (adc_to_pressure_pa x < adc_to_pressure_pa y ↔ x < y) := by
    intro x y
    constructor
    · intro h
      by_contra hn
      push_neg at hn
      rcases eq_or_lt_of_le hn with rfl | hlt
      · exact lt_irrefl _ h
      · exact absurd (adc_to_pressure_pa_strictMono hlt) (by exact not_lt.mpr h.le)
    · exact adc_to_pressure_pa_strictMono
  refine ⟨fun x y => adc_to_pressure_pa_strictMono, hiff _ _, fun _ => ⟨?_, ?_⟩⟩
  · intro hraw
    exact (rowFlowRate_sign r).1 ((hiff _ _).mpr hraw)
  · intro hraw
    rcases eq_or_lt_of_le hraw with he | hlt
    · refine (rowFlowRate_sign r).2 (le_of_eq ?_)
      rw [he]
    · exact (rowFlowRate_sign r).2 ((hiff _ _).mpr hlt).le

/-- Witness for C10 at a concrete row: discharges the monotonicity hypothesis,
the iff, and the valid-radicand sign conclusions at ADC counts
(p2, ins, exp) = (1700, 2000, 1800). -/
theorem flow_sign_from_raw_adc_witness :
    ((1639:ℝ) < 1640) ∧
    (adc_to_pressure_pa (1639:ℝ) < adc_to_pressure_pa 1640) ∧
    ((RawRow.mk 0 1700 2000 1800).p1_exp_ADC ≤ (RawRow.mk 0 1700 2000 1800).p1_ins_ADC) ∧
    (adc_to_pressure_pa (RawRow.mk 0 1700 2000 1800).p2_ADC ≤
      max (adc_to_pressure_pa (RawRow.mk 0 1700 2000 1800).p1_ins_ADC)
        (adc_to_pressure_pa (RawRow.mk 0 1700 2000 1800).p1_exp_ADC)) ∧
    0 ≤ rowFlowRate (RawRow.mk 0 1700 2000 1800) := by
  obtain ⟨hmono, hiff, hsign⟩ := flow_sign_from_raw_adc (RawRow.mk 0 1700 2000 1800)
  have hrad : adc_to_pressure_pa (RawRow.mk 0 1700 2000 1800).p2_ADC ≤
      max (adc_to_pressure_pa (RawRow.mk 0 1700 2000 1800).p1_ins_ADC)
        (adc_to_pressure_pa (RawRow.mk 0 1700 2000 1800).p1_exp_ADC) := by
    refine le_trans ?_ (le_max_left _ _)
    norm_num [adc_to_pressure_pa, adc_to_cmH2O]
  have hraw : (RawRow.mk (0:ℝ) 1700 2000 1800).p1_exp_ADC ≤
      (RawRow.mk (0:ℝ) 1700 2000 1800).p1_ins_ADC := by norm_num
  exact ⟨by norm_num, hmono 1639 1640 (by norm_num), hraw, hrad, (hsign hrad).2 hraw⟩

end CPAP

namespace CPAP

/-- C4: a flow series with fewer than 2 samples, or with an all-equal time
axis, makes detect_peak_times fail with an explicit error rather than return
a peak-times result: an empty series fails on array indexing; a one-sample
series gives a NaN sampling rate and scipy's design crashes on the empty
pole array left after NaN poles are dropped; an all-equal axis gives an
infinite sampling rate, hence normalized cutoff 0, rejected by scipy. -/
theorem detect_degenerate_fails (data : List (ℝ × ℝ))
    (hdeg : data.length < 2 ∨
      ∀ x ∈ data.map Prod.fst, ∀ y ∈ data.map Prod.fst, x = y) :
    ∃ e, detect_peak_times data = Except.error e := by
  match data, hdeg with
  | [], _ => exact ⟨_, rfl⟩
  | [p], _ => exact ⟨_, rfl⟩
  | p :: q :: r, hdeg =>
      have hconst : ∀ x ∈ (p :: q :: r).map Prod.fst,
          ∀ y ∈ (p :: q :: r).map Prod.fst, x = y := by
        refine hdeg.resolve_left ?_
        simp only [List.length_cons, not_lt]
        omega
      have hc : ∀ y ∈ (p :: q :: r).map Prod.fst, y = p.1 := fun y hy =>
        hconst y hy p.1 (by simp)
      have hz := npDiff_eq_zero_of_const ((p :: q :: r).map Prod.fst) p.1 hc
      have hsum : (npDiff ((p :: q :: r).map Prod.fst)).sum = 0 :=
        List.sum_eq_zero hz
      have hlen2 : (npDiff ((p :: q :: r).map Prod.fst)).length = r.length + 1 := by
        rw [npDiff_length]
        simp
      have hmean : npMean (npDiff ((p :: q :: r).map Prod.fst)) = NpF.num 0 := by
        rw [npMean, if_neg ?_, hsum]
        · simp
        · cases hdn : npDiff ((p :: q :: r).map Prod.fst) with
          | nil => rw [hdn] at hlen2; simp at hlen2
          | cons d ds => simp
      refine ⟨"filter critical frequencies must be greater than 0", ?_⟩
      unfold detect_peak_times detectPeakTimesAux
      rw [if_neg (by simp)]
      simp only [hmean]
      norm_num [NpF.div]

/-- Witness for C4: a one-sample series satisfies the degeneracy hypothesis
and the detector fails on it. -/
theorem detect_degenerate_fails_witness :
    ([((0:ℝ), 5)].length < 2 ∨
      ∀ x ∈ [((0:ℝ), 5)].map Prod.fst, ∀ y ∈ [((0:ℝ), 5)].map Prod.fst, x = y) ∧
    ∃ e, detect_peak_times [((0:ℝ), 5)] = Except.error e :=
  ⟨Or.inl (by simp), detect_degenerate_fails _ (Or.inl (by simp))⟩

/-- C6 (amended): every peak-times list successfully returned by
detect_peak_times is a subsequence of the input series' time axis (each
peak time occurs at some input sample time, in input order), and it is
strictly increasing provided the input time axis is strictly increasing.
The original claim asserted unconditional strict increase; with repeated
input timestamps (allowed by the FlowSample invariant, which only requires
a non-decreasing axis) the returned peak times can repeat, as
peak_times_not_strict_cex shows on a concrete accepted series. -/
theorem peak_times_ordered (data : List (ℝ × ℝ)) (pts filt : List ℝ)
    (h : detect_peak_times data = Except.ok (pts, filt)) :
    List.Sublist pts (data.map Prod.fst) ∧
      ((data.map Prod.fst).Pairwise (· < ·) → pts.Pairwise (· < ·)) := by
  unfold detect_peak_times at h
  obtain ⟨hlen, pmin, hpts⟩ :=
    detect_ok_inv butterLowpassSos2 Real.sqrt data pts filt h
  have hpw := findPeaks_pairwise filt (0.00009:ℝ) 80 pmin
  have hb : ∀ m ∈ findPeaks filt (0.00009:ℝ) 80 pmin,
      m < (data.map Prod.fst).length := by
    intro m hm
    have := findPeaks_bound filt (0.00009:ℝ) 80 pmin m hm
    omega
  subst hpts
  exact ⟨mapGetD_sublist 0 (data.map Prod.fst) _ hpw hb,
    fun ht => mapGetD_pairwise 0 _ (data.map Prod.fst) _ hpw hb ht⟩

end CPAP

namespace CPAP

/-- Witness for C6: the two-sample series (0 s, 0), (0.1 s, 0) is accepted by
the detector (inferred sampling rate 10 Hz, normalized cutoff 2/5), returns
the empty peak list, and the conclusions of the ordering theorem hold at it. -/
theorem peak_times_ordered_witness :
    detect_peak_times [((0:ℝ), 0), (1/10, 0)] = Except.ok ([], [0, 0]) ∧
    List.Sublist ([] : List ℝ) ([((0:ℝ), 0), (1/10, 0)].map Prod.fst) ∧
    (([((0:ℝ), 0), (1/10, 0)].map Prod.fst).Pairwise (· < ·) →
      ([] : List ℝ).Pairwise (· < ·)) := by
  have hdet : detect_peak_times [((0:ℝ), 0), (1/10, 0)] = Except.ok ([], [0, 0]) := by
    have hmean : npMean (npDiff [(0:ℝ), 1/10]) = NpF.num (1/10) := by
      norm_num [npDiff, npMean]
    have hd1 : NpF.div (NpF.num (1:ℝ)) (NpF.num (1/10)) = NpF.num 10 := by
      norm_num [NpF.div]
    have hd2 : NpF.div (NpF.num (10:ℝ)) (NpF.num 2) = NpF.num 5 := by
      norm_num [NpF.div]
    have hd3 : NpF.div (NpF.num (2:ℝ)) (NpF.num 5) = NpF.num (2/5) := by
      norm_num [NpF.div]
    have hsos : sosfilt (butterLowpassSos2 (2/5)) [(0:ℝ), 0] 0 0 = [0, 0] := by
      simp [sosfilt]
    have hfp : ∀ pm : ℝ, findPeaks [(0:ℝ), 0] 0.00009 80 pm = [] := by
      intro pm
      have hlm : localMaxima [(0:ℝ), 0] = [] := by
        rw [localMaxima]
        norm_num
        rw [lmGo]
        norm_num
      simp [findPeaks, hlm, selectByPeakDistance, distKeepLoop, maskFilter]
    unfold detect_peak_times detectPeakTimesAux
    rw [if_neg (by simp)]
    simp only [List.map_cons, List.map_nil]
    rw [hmean, hd1, hd2, hd3]
    simp only []
    rw [if_neg (by norm_num), if_neg (by norm_num)]
    rw [hsos, hfp]
    simp
  obtain ⟨h1, h2⟩ := peak_times_ordered _ _ _ hdet
  exact ⟨hdet, h1, h2⟩

end CPAP

namespace CPAP

/-- C6 counterexample to the original claim: the 85-sample series cexData
(time axis 84 zeros then 10.5 s, flow with two filter bumps 80 samples
apart) is accepted by detect_peak_times, and the returned peak-times list
is [0, 0], which is not strictly increasing: with repeated input
timestamps the time values at distinct peak indices coincide. -/
theorem peak_times_not_strict_cex :
    detect_peak_times cexData = Except.ok ([(0:ℝ), 0], cexFiltered) ∧
      ¬ ([(0:ℝ), 0].Pairwise (· < ·)) := by
  refine ⟨cex_detect, ?_⟩
  simp [List.pairwise_cons]

end CPAP
